import Mathlib

/-!
Verification of the bus-position animation pipeline
(source: create_animated_map.ipynb).

The notebook is a linear pandas/geopandas pipeline:

* cell 3: read the positions table, drop exact-duplicate rows;
* preprocessing_positions: shift timestamps by -7 hours, set them as the
  index, sort, then per trip resample to one row per 60-second bucket
  (pandas resample with freq 60s and aggregator first), convert to a
  geodataframe and reproject;
* preprocessing_lines: group shape points by shape_id, build a LineString
  per shape (shapely raises when a group has fewer than 2 points, which
  aborts the whole groupby apply), reproject;
* create_maps: one image per distinct index timestamp, written under a
  directory, file name the hour-minute code of the timestamp;
* create_gif: read the frame of every distinct index timestamp back and
  encode a gif; a missing file raises before any gif is written;
* the bottom cells call create_maps for two extents and create_gif twice,
  both times reading from the downtown image directory.

Machine reals (coordinates) are modelled as rationals; the external map
projection (geopandas to_crs, an external collaborator) is a parameter
proj of the definitions.  Missing values (NaN) produced by resampling
empty buckets are modelled as Option none.  Time is in seconds as Int;
pandas resample with a 60s frequency buckets by floor division of the
epoch-based timestamp, which Int division (ediv) matches for the positive
divisor 60.
-/

/-- A row of the raw positions table (cell 3 of the notebook): columns
trip_id, update_time (Unix seconds), longitude, latitude. -/
structure PositionRecord where
  trip_id : String
  update_time : Int
  longitude : ℚ
  latitude : ℚ
deriving DecidableEq

/-- The -7 hour shift applied in preprocessing_positions
(update_datetime = to_datetime(update_time) + Hour(-7)), in seconds. -/
def displayTime (r : PositionRecord) : Int :=
  r.update_time - 7 * 3600

/-- The 60-second bucket a record falls into: pandas resample with freq
60s assigns row with index time d to the bin starting at 60 * (d fdiv 60).
Int division is floor division for the positive divisor 60. -/
def bucketOf (r : PositionRecord) : Int :=
  displayTime r / 60

/-- Comparison used by sort_index on the positions frame: order by the
(shifted) timestamp index. -/
def timeLE (a b : PositionRecord) : Prop :=
  a.update_time ≤ b.update_time

instance : DecidableRel timeLE :=
  fun a b => inferInstanceAs (Decidable (a.update_time ≤ b.update_time))

instance : IsTotal PositionRecord timeLE :=
  ⟨fun a b => Int.le_total a.update_time b.update_time⟩

instance : IsTrans PositionRecord timeLE :=
  ⟨fun _ _ _ h h2 => Int.le_trans h h2⟩

/-- Keep-first-occurrence duplicate removal, the semantics of pandas
drop_duplicates and of Index.unique / Series.unique (first-seen order,
no duplicates); seen accumulates the values already emitted. -/
def uniqAux {α : Type} [DecidableEq α] (seen : List α) : List α → List α
  | [] => []
  | x :: xs => if x ∈ seen then uniqAux seen xs else x :: uniqAux (x :: seen) xs

/-- First-seen-order deduplication (pandas drop_duplicates / unique). -/
def uniqList {α : Type} [DecidableEq α] (l : List α) : List α :=
  uniqAux [] l

/-- Cell 3 of the notebook: df = df.drop_duplicates(), removing rows that
are exact duplicates (all fields equal) of an earlier row. -/
def drop_duplicates (df : List PositionRecord) : List PositionRecord :=
  uniqList df

/-- The consecutive integers a, a+1, ..., b (empty when b < a): the bin
labels pandas resample generates between the first and last bucket. -/
def intRange (a b : Int) : List Int :=
  (List.range (b - a + 1).toNat).map (fun (i : Nat) => a + (i : Int))

/-- A row of the resampled frame df_sampled.  Resampling an interior
bucket with no observation produces a row whose column values are all
NaN, modelled as none; sample_time is the bin label (bin start) in the
shifted display reference. -/
structure SampledRow where
  sample_time : Int
  trip_id : Option String
  longitude : Option ℚ
  latitude : Option ℚ
deriving DecidableEq

/-- One output row of resample(60s).first() for bin b: the aggregator
first takes the values of the first row of the bin in index order, and
yields NaN for a bin with no rows. -/
def sampleBucket (rows : List PositionRecord) (b : Int) : SampledRow :=
  match rows.filter (fun r => bucketOf r == b) with
  | [] => ⟨60 * b, none, none, none⟩
  | r :: _ => ⟨60 * b, some r.trip_id, some r.longitude, some r.latitude⟩

/-- pandas df.resample(60s).first() on the rows of one trip (rows are in
index order): bins run from the bucket of the first row to the bucket of
the last row inclusive, one output row per bin, including empty bins. -/
def resampleTrip (rows : List PositionRecord) : List SampledRow :=
  match rows with
  | [] => []
  | r :: rs =>
      (intRange (bucketOf r) (bucketOf (rs.getLastD r))).map
        (sampleBucket (r :: rs))

/-- The positions frame after set_index(update_datetime) and sort_index
in preprocessing_positions. -/
def sortedDf (df : List PositionRecord) : List PositionRecord :=
  List.insertionSort timeLE df

/-- df.trip_id.unique() over the sorted frame: the trip loop of
preprocessing_positions, trips in first-seen order without repetition. -/
def tripIds (df : List PositionRecord) : List String :=
  uniqList ((sortedDf df).map (fun r => r.trip_id))

/-- The per-trip slice df[df.trip_id == trip] taken inside the loop of
preprocessing_positions. -/
def tripRows (df : List PositionRecord) (t : String) : List PositionRecord :=
  (sortedDf df).filter (fun r => r.trip_id == t)

/-- The accumulated df_sampled: the resampled slices of all trips
appended in loop order. -/
def df_sampled (df : List PositionRecord) : List SampledRow :=
  ((tripIds df).map (fun t => resampleTrip (tripRows df t))).flatten

/-- A row of the final geodataframe gdf_pos: the resampled columns plus
the geometry column built by points_from_xy and reprojected by to_crs.
A row whose longitude or latitude is NaN gets a degenerate geometry,
modelled as none. -/
structure SampledPos where
  sample_time : Int
  trip_id : Option String
  longitude : Option ℚ
  latitude : Option ℚ
  geometry : Option (ℚ × ℚ)
deriving DecidableEq

/-- points_from_xy followed by to_crs for one row: the geometry is the
projected (longitude, latitude) point; proj is the external projection
collaborator (epsg 4326 to epsg 3857). -/
def toGeo (proj : ℚ × ℚ → ℚ × ℚ) (s : SampledRow) : SampledPos :=
  { sample_time := s.sample_time
    trip_id := s.trip_id
    longitude := s.longitude
    latitude := s.latitude
    geometry :=
      match s.longitude, s.latitude with
      | some lon, some lat => some (proj (lon, lat))
      | _, _ => none }

/-- Comparison used by the final gdf.sort_index(): order by the sampled
timestamp index. -/
def sampleLE (a b : SampledPos) : Prop :=
  a.sample_time ≤ b.sample_time

instance : DecidableRel sampleLE :=
  fun a b => inferInstanceAs (Decidable (a.sample_time ≤ b.sample_time))

instance : IsTotal SampledPos sampleLE :=
  ⟨fun a b => Int.le_total a.sample_time b.sample_time⟩

instance : IsTrans SampledPos sampleLE :=
  ⟨fun _ _ _ h h2 => Int.le_trans h h2⟩

/-- The function preprocessing_positions of the notebook: shift times,
sort by time, resample each trip to one row per minute bucket, append the
per-trip results, build geometries through proj, sort by the sampled
index.  proj abstracts the external to_crs projection. -/
def preprocessing_positions (proj : ℚ × ℚ → ℚ × ℚ)
    (df : List PositionRecord) : List SampledPos :=
  List.insertionSort sampleLE ((df_sampled df).map (toGeo proj))

/-- The raw positions frame as the caller of preprocessing_positions sees
it: its rows together with the update_datetime column, which is absent
(none) before the call.  Assigning a column to a dataframe argument in
pandas mutates the object the caller passed in. -/
structure BusDataframe where
  rows : List PositionRecord
  update_datetime_col : Option (List Int)
deriving DecidableEq

/-- preprocessing_positions as observed by its caller: the two column
assignments at the top of the function store the shifted datetime column
into the dataframe object the caller passed (in-place mutation), before
the local name is rebound by set_index.  Returns the caller-visible
dataframe after the call together with the returned geodataframe. -/
def preprocessing_positions_call (proj : ℚ × ℚ → ℚ × ℚ)
    (df : BusDataframe) : BusDataframe × List SampledPos :=
  ({ rows := df.rows
     update_datetime_col := some (df.rows.map displayTime) },
   preprocessing_positions proj df.rows)

/-- The full position pipeline of the notebook: drop_duplicates (cell 3)
followed by preprocessing_positions (cell 8). -/
def positionPipeline (proj : ℚ × ℚ → ℚ × ℚ)
    (df : List PositionRecord) : List SampledPos :=
  preprocessing_positions proj (drop_duplicates df)

/-- Bool test used to count the sampled rows of trip t in bucket b. -/
def isTBrow (t : String) (b : Int) (s : SampledRow) : Bool :=
  s.trip_id == some t && s.sample_time == 60 * b

/-- Bool test used to count the output rows of trip t in bucket b. -/
def isTB (t : String) (b : Int) (p : SampledPos) : Bool :=
  p.trip_id == some t && p.sample_time == 60 * b

/-- A row of the shapes file (GTFS static shapes.txt). -/
structure ShapePoint where
  shape_id : String
  shape_pt_lon : ℚ
  shape_pt_lat : ℚ
deriving DecidableEq

/-- Code-point lexicographic comparison of character lists, the order
Python uses on strings and pandas uses to sort group keys. -/
def charsLe : List Char → List Char → Bool
  | [], _ => true
  | _ :: _, [] => false
  | c :: cs, d :: ds =>
      if c.toNat < d.toNat then true
      else if d.toNat < c.toNat then false
      else charsLe cs ds

/-- Code-point lexicographic order on strings (Python string order). -/
def strLE (a b : String) : Prop :=
  charsLe a.data b.data = true

instance : DecidableRel strLE :=
  fun a b => inferInstanceAs (Decidable (charsLe a.data b.data = true))

/-- Sequencing of a fallible computation over a list, the behaviour of
groupby(...).apply and of a python loop: the first raised exception
propagates and aborts everything after it. -/
def exceptMapList {α β : Type} (f : α → Except String β) :
    List α → Except String (List β)
  | [] => .ok []
  | x :: xs =>
      match f x with
      | .error e => .error e
      | .ok y =>
          match exceptMapList f xs with
          | .error e => .error e
          | .ok ys => .ok (y :: ys)

/-- Whether a fallible computation raised. -/
def isErr {α : Type} : Except String α → Bool
  | .error _ => true
  | .ok _ => false

/-- The body of the groupby apply in preprocessing_lines for group key k:
collect the geometry points of the rows of shape k in row order and build
a LineString from them; shapely raises when given fewer than 2 points. -/
def lineStringOf (df : List ShapePoint) (k : String) :
    Except String (String × List (ℚ × ℚ)) :=
  if ((df.filter (fun p => p.shape_id == k)).map
      (fun p => (p.shape_pt_lon, p.shape_pt_lat))).length < 2 then
    .error "LineStrings must have at least 2 coordinate tuples"
  else
    .ok (k, (df.filter (fun p => p.shape_id == k)).map
      (fun p => (p.shape_pt_lon, p.shape_pt_lat)))

/-- The function preprocessing_lines of the notebook: group the shape
points by shape_id (pandas groupby sorts the group keys and keeps row
order inside each group), apply the LineString construction to each
group (an exception aborts the whole apply), then reproject every vertex
with to_crs, abstracted as proj. -/
def preprocessing_lines (proj : ℚ × ℚ → ℚ × ℚ) (df : List ShapePoint) :
    Except String (List (String × List (ℚ × ℚ))) :=
  match exceptMapList (lineStringOf df)
      (List.insertionSort strLE (uniqList (df.map (fun p => p.shape_id)))) with
  | .error e => .error e
  | .ok g => .ok (g.map (fun kg => (kg.1, kg.2.map proj)))

/-- Two-digit zero-padded decimal rendering of a value in [0, 99]. -/
def pad2 (n : Int) : String :=
  if n < 10 then "0" ++ toString n else toString n

/-- strftime HHMM of an epoch-based time in seconds (display reference):
the 4-digit hour-minute code used as frame file name. -/
def fmtHHMM (t : Int) : String :=
  pad2 (t / 3600 % 24) ++ pad2 (t / 60 % 60)

/-- strftime HH:MM, the clock label drawn on each frame. -/
def fmtHM (t : Int) : String :=
  pad2 (t / 3600 % 24) ++ ":" ++ pad2 (t / 60 % 60)

/-- The frame file written for the timestamp t of the sampled index:
path_images/HHMM.png. -/
def frame_filename (path_images : String) (t : Int) : String :=
  path_images ++ "/" ++ fmtHHMM t ++ ".png"

/-- The content of one rendered frame: the full route layer, the sampled
positions whose index equals the frame timestamp, and the clock label. -/
structure FrameImage where
  route_layer : List (String × List (ℚ × ℚ))
  position_layer : List SampledPos
  time_label : String
deriving DecidableEq

/-- The drawing done for one timestamp inside create_maps: plot all of
gdf_lines, plot gdf_pos.loc[i], and write the HH:MM text label. -/
def renderFrame (gdf_lines : List (String × List (ℚ × ℚ)))
    (gdf_pos : List SampledPos) (t : Int) : FrameImage :=
  { route_layer := gdf_lines
    position_layer := gdf_pos.filter (fun p => p.sample_time == t)
    time_label := fmtHM t }

/-- The function create_maps of the notebook: for every distinct index
timestamp of gdf_pos (first-seen order of the sorted index), render a
frame and save it under path_images keyed by the HHMM code.  The result
is the ordered list of (file name, image) writes performed. -/
def create_maps (gdf_lines : List (String × List (ℚ × ℚ)))
    (gdf_pos : List SampledPos) (path_images : String) :
    List (String × FrameImage) :=
  (uniqList (gdf_pos.map (fun p => p.sample_time))).map
    (fun t => (frame_filename path_images t, renderFrame gdf_lines gdf_pos t))

/-- The file system resulting from a sequence of writes: the content at a
name is that of the last write to it. -/
def fileSystemOf (writes : List (String × FrameImage)) :
    String → Option FrameImage :=
  fun name => writes.reverse.lookup name

/-- imageio.imread: return the image stored at the name, raising when the
file does not exist. -/
def imread (fs : String → Option FrameImage) (name : String) :
    Except String FrameImage :=
  match fs name with
  | some img => .ok img
  | none => .error ("No such file: " ++ name)

/-- The function create_gif of the notebook: read the frame of every
distinct index timestamp of gdf_pos back from path_images (a missing
file raises, aborting before mimsave runs), then write the gif: the
result is the written artifact (its path and its ordered frames), or the
raised error. -/
def create_gif (fs : String → Option FrameImage) (gdf_pos : List SampledPos)
    (path_images path_gif : String) :
    Except String (String × List FrameImage) :=
  match exceptMapList (fun t => imread fs (frame_filename path_images t))
      (uniqList (gdf_pos.map (fun p => p.sample_time))) with
  | .error e => .error e
  | .ok imgs => .ok (path_gif, imgs)

/-- Configured image directory of the greater Portland (regional) extent
(cell 14). -/
def path_images_greater_portland : String :=
  "data/greater_portland"

/-- Configured image directory of the downtown extent (cell 14). -/
def path_images_downtown : String :=
  "data/downtown"

/-- Configured animation path of the regional extent artifact: the first
create_gif call writes data/greater_portland.gif. -/
def path_gif_greater_portland : String :=
  "data/greater_portland.gif"

/-- Configured animation path of the downtown extent artifact. -/
def path_gif_downtown : String :=
  "data/downtown.gif"

/-- The two create_gif invocations at the bottom of the notebook, as
(path_images, path_gif) argument pairs in call order: both pass the
downtown image directory. -/
def gif_calls : List (String × String) :=
  [(path_images_downtown, path_gif_greater_portland),
   (path_images_downtown, path_gif_downtown)]

/-- Concrete input with one trip observed in minute buckets 0 and 2 and
not in bucket 1 (update_time is display-shifted by 7 h = 25200 s). -/
def gapRecords : List PositionRecord :=
  [⟨"7001", 25205, 2, 3⟩, ⟨"7001", 25330, 4, 5⟩]

/-- Concrete input: two records of one trip 10 seconds apart inside one
minute bucket, a second trip elsewhere. -/
def sameBucketRecords : List PositionRecord :=
  [⟨"7001", 25210, 2, 3⟩, ⟨"7001", 25220, 4, 5⟩, ⟨"8002", 25500, 6, 7⟩]

/-- Concrete shapes input: shape A has a single point, shape B has two. -/
def shortShapeRecords : List ShapePoint :=
  [⟨"A", 1, 2⟩, ⟨"B", 3, 4⟩, ⟨"B", 5, 6⟩]

/-- Concrete shapes input: one shape with three points in source order. -/
def orderedShapeRecords : List ShapePoint :=
  [⟨"S", 1, 2⟩, ⟨"S", 3, 4⟩, ⟨"S", 5, 6⟩]

/-- A concrete sampled-position row used by witnesses. -/
def witnessPos : SampledPos :=
  ⟨25200, some "7001", some 2, some 3, some (2, 3)⟩

/-- A concrete single-row position set used by witnesses. -/
def witnessPosSet : List SampledPos :=
  [witnessPos]

theorem mem_uniqAux {α : Type} [DecidableEq α] (seen l : List α) (y : α) :
    y ∈ uniqAux seen l ↔ y ∈ l ∧ y ∉ seen := by
  induction l generalizing seen with
  | nil => simp [uniqAux]
  | cons x xs ih =>
    by_cases hx : x ∈ seen
    · rw [uniqAux, if_pos hx, ih, List.mem_cons]
      constructor
      · rintro ⟨h1, h2⟩
        exact ⟨Or.inr h1, h2⟩
      · rintro ⟨h1 | h1, h2⟩
        · exact absurd (h1 ▸ hx) h2
        · exact ⟨h1, h2⟩
    · rw [uniqAux, if_neg hx]
      constructor
      · intro h
        rcases List.mem_cons.mp h with rfl | h1
        · exact ⟨List.mem_cons_self _ _, hx⟩
        · rw [ih] at h1
          exact ⟨List.mem_cons_of_mem _ h1.1,
            fun hy => h1.2 (List.mem_cons_of_mem _ hy)⟩
      · rintro ⟨h1, h2⟩
        by_cases hyx : y = x
        · exact hyx ▸ List.mem_cons_self _ _
        · rcases List.mem_cons.mp h1 with h3 | h3
          · exact absurd h3 hyx
          · refine List.mem_cons_of_mem _ ((ih (x :: seen)).mpr ⟨h3, ?_⟩)
            intro hy
            rcases List.mem_cons.mp hy with h4 | h4
            · exact hyx h4
            · exact h2 h4

theorem mem_uniqList {α : Type} [DecidableEq α] {l : List α} {y : α} :
    y ∈ uniqList l ↔ y ∈ l := by
  rw [uniqList, mem_uniqAux]
  simp

theorem nodup_uniqAux {α : Type} [DecidableEq α] (seen l : List α) :
    (uniqAux seen l).Nodup := by
  induction l generalizing seen with
  | nil => simp [uniqAux]
  | cons x xs ih =>
    by_cases hx : x ∈ seen
    · rw [uniqAux, if_pos hx]
      exact ih seen
    · rw [uniqAux, if_neg hx, List.nodup_cons]
      refine ⟨fun hmem => ?_, ih (x :: seen)⟩
      rw [mem_uniqAux] at hmem
      exact hmem.2 (List.mem_cons_self x seen)

theorem uniqAux_append_of_mem {α : Type} [DecidableEq α] (seen l : List α) (x : α)
    (hx : x ∈ seen ∨ x ∈ l) : uniqAux seen (l ++ [x]) = uniqAux seen l := by
  induction l generalizing seen with
  | nil =>
    rcases hx with h | h
    · simp [uniqAux, h]
    · cases h
  | cons y ys ih =>
    by_cases hy : y ∈ seen
    · rw [List.cons_append, uniqAux, if_pos hy, uniqAux, if_pos hy]
      apply ih
      rcases hx with h | h
      · exact Or.inl h
      · rcases List.mem_cons.mp h with rfl | h2
        · exact Or.inl hy
        · exact Or.inr h2
    · rw [List.cons_append, uniqAux, if_neg hy, uniqAux, if_neg hy]
      congr 1
      apply ih
      rcases hx with h | h
      · exact Or.inl (List.mem_cons_of_mem _ h)
      · rcases List.mem_cons.mp h with rfl | h2
        · exact Or.inl (List.mem_cons_self _ _)
        · exact Or.inr h2

theorem uniqList_length_toFinset {α : Type} [DecidableEq α] (l : List α) :
    (uniqList l).length = l.toFinset.card := by
  have h1 : (uniqList l).toFinset = l.toFinset := by
    ext x
    simp [List.mem_toFinset, mem_uniqList]
  have h2 : (uniqList l).Nodup := nodup_uniqAux [] l
  rw [← h1]
  exact (List.toFinset_card_of_nodup h2).symm

theorem mem_intRange (a b x : Int) : x ∈ intRange a b ↔ a ≤ x ∧ x ≤ b := by
  rw [intRange]
  simp only [List.mem_map, List.mem_range]
  constructor
  · rintro ⟨i, hi, rfl⟩
    omega
  · rintro ⟨h1, h2⟩
    exact ⟨(x - a).toNat, by omega, by omega⟩

theorem nodup_intRange (a b : Int) : (intRange a b).Nodup := by
  rw [intRange]
  apply List.Nodup.map_on
  · intro x _ y _ h
    omega
  · exact List.nodup_range _

theorem sum_map_eq_single {α : Type} (l : List α) (f : α → ℕ) (t : α)
    (hn : l.Nodup) (ht : t ∈ l) (h0 : ∀ x ∈ l, x ≠ t → f x = 0) :
    (l.map f).sum = f t := by
  induction l with
  | nil => cases ht
  | cons a as ih =>
    rw [List.nodup_cons] at hn
    rcases List.mem_cons.mp ht with rfl | h2
    · rw [List.map_cons, List.sum_cons]
      have hz : (as.map f).sum = 0 := by
        apply List.sum_eq_zero
        intro x hx
        obtain ⟨y, hy, rfl⟩ := List.mem_map.mp hx
        refine h0 y (List.mem_cons_of_mem _ hy) ?_
        rintro rfl
        exact hn.1 hy
      omega
    · have ha : f a = 0 := by
        refine h0 a (List.mem_cons_self _ _) ?_
        rintro rfl
        exact hn.1 h2
      rw [List.map_cons, List.sum_cons, ha,
        ih hn.2 h2 (fun x hx hxt => h0 x (List.mem_cons_of_mem _ hx) hxt)]
      omega

theorem exceptMapList_isErr_of_mem {α β : Type} (f : α → Except String β)
    (l : List α) (x : α) (hx : x ∈ l) (he : isErr (f x) = true) :
    isErr (exceptMapList f l) = true := by
  induction l with
  | nil => cases hx
  | cons y ys ih =>
    rcases List.mem_cons.mp hx with rfl | h2
    · rw [exceptMapList]
      cases hfy : f x with
      | error e => rfl
      | ok v =>
        rw [hfy] at he
        exact absurd he (by rw [isErr]; simp)
    · rw [exceptMapList]
      cases hfy : f y with
      | error e => rfl
      | ok v =>
        cases hys : exceptMapList f ys with
        | error e => rfl
        | ok vs =>
          have h3 := ih h2
          rw [hys] at h3
          exact absurd h3 (by rw [isErr]; simp)

theorem exceptMapList_ok_mem {α β : Type} (f : α → Except String β) (l : List α)
    (ys : List β) (h : exceptMapList f l = .ok ys) (y : β) (hy : y ∈ ys) :
    ∃ x ∈ l, f x = .ok y := by
  induction l generalizing ys with
  | nil =>
    rw [exceptMapList] at h
    injection h with h2
    rw [← h2] at hy
    cases hy
  | cons a as ih =>
    rw [exceptMapList] at h
    cases hfa : f a with
    | error e => rw [hfa] at h; cases h
    | ok v =>
      rw [hfa] at h
      cases has : exceptMapList f as with
      | error e => rw [has] at h; cases h
      | ok vs =>
        rw [has] at h
        injection h with h2
        rw [← h2] at hy
        rcases List.mem_cons.mp hy with rfl | h3
        · exact ⟨a, List.mem_cons_self _ _, hfa⟩
        · obtain ⟨x, hx, hfx⟩ := ih vs has h3
          exact ⟨x, List.mem_cons_of_mem _ hx, hfx⟩

theorem exceptMapList_ok_of_forall {α β : Type} (f : α → Except String β)
    (l : List α) (h : ∀ x ∈ l, ∃ y, f x = .ok y) :
    ∃ ys, exceptMapList f l = .ok ys := by
  induction l with
  | nil => exact ⟨[], rfl⟩
  | cons a as ih =>
    obtain ⟨y, hy⟩ := h a (List.mem_cons_self _ _)
    obtain ⟨ys, hys⟩ := ih (fun x hx => h x (List.mem_cons_of_mem _ hx))
    refine ⟨y :: ys, ?_⟩
    rw [exceptMapList, hy, hys]

theorem lookup_isSome_of_mem {β : Type} (l : List (String × β)) (k : String) (v : β)
    (h : (k, v) ∈ l) : ∃ w, l.lookup k = some w := by
  induction l with
  | nil => cases h
  | cons p ps ih =>
    obtain ⟨k1, v1⟩ := p
    by_cases hk : (k == k1) = true
    · exact ⟨v1, by simp [List.lookup, hk]⟩
    · have h2 : (k, v) ∈ ps := by
        rcases List.mem_cons.mp h with hh | h2
        · cases hh
          exact absurd (beq_self_eq_true k) hk
        · exact h2
      obtain ⟨w, hw⟩ := ih h2
      exact ⟨w, by simp [List.lookup, hk, hw]⟩

theorem bucketOf_mono {a b : PositionRecord} (h : a.update_time ≤ b.update_time) :
    bucketOf a ≤ bucketOf b := by
  rw [bucketOf, bucketOf, displayTime, displayTime]
  exact Int.ediv_le_ediv (by norm_num) (by omega)

theorem sorted_cons_le {r : PositionRecord} {rs : List PositionRecord}
    (hs : List.Sorted timeLE (r :: rs)) {q : PositionRecord} (hq : q ∈ r :: rs) :
    r.update_time ≤ q.update_time := by
  rcases List.mem_cons.mp hq with rfl | h2
  · exact le_refl _
  · exact List.rel_of_sorted_cons hs q h2

theorem sorted_le_getLastD (rs : List PositionRecord) :
    ∀ r q, List.Sorted timeLE (r :: rs) → q ∈ r :: rs →
      q.update_time ≤ (rs.getLastD r).update_time := by
  induction rs with
  | nil =>
    intro r q _ hq
    rcases List.mem_cons.mp hq with rfl | h2
    · exact le_refl _
    · cases h2
  | cons s ss ih =>
    intro r q hs hq
    rw [List.getLastD_cons]
    have htail : List.Sorted timeLE (s :: ss) := hs.of_cons
    rcases List.mem_cons.mp hq with rfl | h2
    · have h1 : timeLE q s := List.rel_of_sorted_cons hs s (List.mem_cons_self _ _)
      exact le_trans h1 (ih s s htail (List.mem_cons_self _ _))
    · exact ih s q htail h2

theorem bucket_in_range {r : PositionRecord} {rs : List PositionRecord}
    (hs : List.Sorted timeLE (r :: rs)) {q : PositionRecord} (hq : q ∈ r :: rs) :
    bucketOf r ≤ bucketOf q ∧ bucketOf q ≤ bucketOf (rs.getLastD r) :=
  ⟨bucketOf_mono (sorted_cons_le hs hq),
   bucketOf_mono (sorted_le_getLastD rs r q hs hq)⟩

theorem sampleBucket_time (rows : List PositionRecord) (b : Int) :
    (sampleBucket rows b).sample_time = 60 * b := by
  rw [sampleBucket]
  cases rows.filter (fun r => bucketOf r == b) <;> rfl

theorem resampleTrip_trip_cases (rows : List PositionRecord) (sr : SampledRow)
    (hmem : sr ∈ resampleTrip rows) :
    sr.trip_id = none ∨ ∃ q ∈ rows, sr.trip_id = some q.trip_id := by
  cases rows with
  | nil => simp [resampleTrip] at hmem
  | cons r rs =>
    rw [resampleTrip] at hmem
    obtain ⟨b2, _, hsr⟩ := List.mem_map.mp hmem
    rw [sampleBucket] at hsr
    cases hfil : (r :: rs).filter (fun q => bucketOf q == b2) with
    | nil =>
      rw [hfil] at hsr
      left
      rw [← hsr]
    | cons q qs =>
      rw [hfil] at hsr
      right
      have hqmem : q ∈ (r :: rs).filter (fun q2 => bucketOf q2 == b2) := by
        rw [hfil]
        exact List.mem_cons_self _ _
      exact ⟨q, (List.mem_filter.mp hqmem).1, by rw [← hsr]⟩

theorem countP_resampleTrip (rows : List PositionRecord) (t : String) (b : Int)
    (hs : List.Sorted timeLE rows) (ht : ∀ q ∈ rows, q.trip_id = t) :
    (resampleTrip rows).countP (isTBrow t b) =
      if ∃ q ∈ rows, bucketOf q = b then 1 else 0 := by
  cases rows with
  | nil => simp [resampleTrip]
  | cons r rs =>
    rw [resampleTrip, List.countP_map]
    by_cases hex : ∃ q ∈ r :: rs, bucketOf q = b
    · rw [if_pos hex]
      obtain ⟨q0, hq0, hq0b⟩ := hex
      have hbmem : b ∈ intRange (bucketOf r) (bucketOf (rs.getLastD r)) := by
        rw [mem_intRange]
        have h2 := bucket_in_range hs hq0
        omega
      have hcongr : ∀ b2 ∈ intRange (bucketOf r) (bucketOf (rs.getLastD r)),
          ((isTBrow t b ∘ sampleBucket (r :: rs)) b2 = true) ↔ ((b2 == b) = true) := by
        intro b2 _
        constructor
        · intro hI
          have hI2 : isTBrow t b (sampleBucket (r :: rs) b2) = true := hI
          rw [isTBrow, Bool.and_eq_true] at hI2
          have h3 := hI2.2
          rw [sampleBucket_time, beq_iff_eq] at h3
          rw [beq_iff_eq]
          omega
        · intro hbb
          rw [beq_iff_eq] at hbb
          subst hbb
          show isTBrow t b2 (sampleBucket (r :: rs) b2) = true
          rw [sampleBucket]
          cases hfil : (r :: rs).filter (fun q => bucketOf q == b2) with
          | nil =>
            exfalso
            rw [List.filter_eq_nil_iff] at hfil
            exact hfil q0 hq0 (by simp [hq0b])
          | cons q qs =>
            have hqmem : q ∈ (r :: rs).filter (fun q2 => bucketOf q2 == b2) := by
              rw [hfil]
              exact List.mem_cons_self _ _
            have hqt : q.trip_id = t := ht q (List.mem_filter.mp hqmem).1
            simp [isTBrow, hqt]
      rw [List.countP_congr hcongr]
      exact List.count_eq_one_of_mem (nodup_intRange _ _) hbmem
    · rw [if_neg hex, List.countP_eq_zero]
      intro b2 hb2 hI
      have hI2 : isTBrow t b (sampleBucket (r :: rs) b2) = true := hI
      rw [isTBrow, Bool.and_eq_true] at hI2
      obtain ⟨htrip, htime⟩ := hI2
      rw [sampleBucket] at htrip
      cases hfil : (r :: rs).filter (fun q => bucketOf q == b2) with
      | nil =>
        rw [hfil] at htrip
        simp at htrip
      | cons q qs =>
        rw [hfil] at htrip
        rw [sampleBucket_time, beq_iff_eq] at htime
        have hb2b : b2 = b := by omega
        have hqmem : q ∈ (r :: rs).filter (fun q2 => bucketOf q2 == b2) := by
          rw [hfil]
          exact List.mem_cons_self _ _
        have h4 := List.mem_filter.mp hqmem
        refine hex ⟨q, h4.1, ?_⟩
        have h5 := h4.2
        rw [beq_iff_eq] at h5
        omega

theorem placeholder_mem_resampleTrip (r : PositionRecord) (rs : List PositionRecord)
    (b : Int) (hb0 : bucketOf r ≤ b) (hb1 : b ≤ bucketOf (rs.getLastD r))
    (hempty : ∀ q ∈ r :: rs, bucketOf q ≠ b) :
    (⟨60 * b, none, none, none⟩ : SampledRow) ∈ resampleTrip (r :: rs) := by
  rw [resampleTrip]
  apply List.mem_map.mpr
  refine ⟨b, (mem_intRange _ _ _).mpr ⟨hb0, hb1⟩, ?_⟩
  rw [sampleBucket]
  have hfil : (r :: rs).filter (fun q => bucketOf q == b) = [] := by
    rw [List.filter_eq_nil_iff]
    intro q hq
    simpa using hempty q hq
  rw [hfil]

theorem mem_resampleTrip_data (rows : List PositionRecord) (b : Int)
    (hs : List.Sorted timeLE rows) (sr : SampledRow)
    (hmem : sr ∈ resampleTrip rows) (htrip : sr.trip_id ≠ none)
    (htime : sr.sample_time = 60 * b) :
    ∃ q ∈ rows, bucketOf q = b ∧
      (∀ s ∈ rows, bucketOf s = b → q.update_time ≤ s.update_time) ∧
      sr = ⟨60 * b, some q.trip_id, some q.longitude, some q.latitude⟩ := by
  cases rows with
  | nil => simp [resampleTrip] at hmem
  | cons r rs =>
    rw [resampleTrip] at hmem
    obtain ⟨b2, hb2, hsr⟩ := List.mem_map.mp hmem
    rw [sampleBucket] at hsr
    cases hfil : (r :: rs).filter (fun q => bucketOf q == b2) with
    | nil =>
      rw [hfil] at hsr
      exact absurd (by rw [← hsr]) htrip
    | cons q qs =>
      rw [hfil] at hsr
      have h1 : sr.sample_time = 60 * b2 := by rw [← hsr]
      have hb2b : b2 = b := by omega
      subst hb2b
      have hqmem : q ∈ (r :: rs).filter (fun q2 => bucketOf q2 == b2) := by
        rw [hfil]
        exact List.mem_cons_self _ _
      have hqrow := List.mem_filter.mp hqmem
      refine ⟨q, hqrow.1, ?_, ?_, ?_⟩
      · have h5 := hqrow.2
        rwa [beq_iff_eq] at h5
      · intro s hsrow hsb
        have hsmem : s ∈ (r :: rs).filter (fun q2 => bucketOf q2 == b2) :=
          List.mem_filter.mpr ⟨hsrow, by simp [hsb]⟩
        rw [hfil] at hsmem
        have hsort2 : List.Sorted timeLE (q :: qs) := by
          rw [← hfil]
          exact List.Sorted.filter _ hs
        exact sorted_cons_le hsort2 hsmem
      · rw [← hsr]

theorem mem_tripRows (df : List PositionRecord) (t : String) (q : PositionRecord) :
    q ∈ tripRows df t ↔ q ∈ df ∧ q.trip_id = t := by
  rw [tripRows, sortedDf, List.mem_filter,
    (List.perm_insertionSort timeLE df).mem_iff]
  simp [beq_iff_eq]

theorem sorted_tripRows (df : List PositionRecord) (t : String) :
    List.Sorted timeLE (tripRows df t) :=
  List.Sorted.filter _ (List.sorted_insertionSort timeLE df)

theorem mem_tripIds (df : List PositionRecord) (t : String) :
    t ∈ tripIds df ↔ ∃ r ∈ df, r.trip_id = t := by
  rw [tripIds, mem_uniqList, List.mem_map]
  constructor
  · rintro ⟨r, hr, rfl⟩
    exact ⟨r, (List.perm_insertionSort timeLE df).mem_iff.mp hr, rfl⟩
  · rintro ⟨r, hr, rfl⟩
    exact ⟨r, (List.perm_insertionSort timeLE df).mem_iff.mpr hr, rfl⟩

theorem nodup_tripIds (df : List PositionRecord) : (tripIds df).Nodup :=
  nodup_uniqAux _ _

theorem countP_block_zero (df : List PositionRecord) (t t2 : String) (b : Int)
    (hne : t2 ≠ t) :
    (resampleTrip (tripRows df t2)).countP (isTBrow t b) = 0 := by
  rw [List.countP_eq_zero]
  intro sr hsr hI
  rw [isTBrow, Bool.and_eq_true] at hI
  rcases resampleTrip_trip_cases _ _ hsr with h | ⟨q, hq, hq2⟩
  · rw [h] at hI
    simp at hI
  · have hqt : q.trip_id = t2 := ((mem_tripRows df t2 q).mp hq).2
    have h3 := hI.1
    rw [hq2, hqt, beq_iff_eq] at h3
    exact hne (Option.some_inj.mp h3)

theorem mem_preprocessing_iff (proj : ℚ × ℚ → ℚ × ℚ) (df : List PositionRecord)
    (p : SampledPos) :
    p ∈ preprocessing_positions proj df ↔
      ∃ t2 ∈ tripIds df, ∃ sr ∈ resampleTrip (tripRows df t2), p = toGeo proj sr := by
  rw [preprocessing_positions, (List.perm_insertionSort sampleLE _).mem_iff,
    List.mem_map]
  constructor
  · rintro ⟨sr, hsr, rfl⟩
    rw [df_sampled, List.mem_flatten] at hsr
    obtain ⟨blk, hblk, hsr2⟩ := hsr
    obtain ⟨t2, ht2, rfl⟩ := List.mem_map.mp hblk
    exact ⟨t2, ht2, sr, hsr2, rfl⟩
  · rintro ⟨t2, ht2, sr, hsr, rfl⟩
    refine ⟨sr, ?_, rfl⟩
    rw [df_sampled, List.mem_flatten]
    exact ⟨resampleTrip (tripRows df t2), List.mem_map.mpr ⟨t2, ht2, rfl⟩, hsr⟩

theorem countP_preprocessing (proj : ℚ × ℚ → ℚ × ℚ) (df : List PositionRecord)
    (t : String) (b : Int) :
    (preprocessing_positions proj df).countP (isTB t b) =
      if ∃ q ∈ df, q.trip_id = t ∧ bucketOf q = b then 1 else 0 := by
  rw [preprocessing_positions,
    List.Perm.countP_eq _ (List.perm_insertionSort sampleLE _), List.countP_map]
  have hfun : (isTB t b ∘ toGeo proj) = isTBrow t b := rfl
  rw [hfun, df_sampled, List.countP_flatten, List.map_map]
  have hfun2 : (List.countP (isTBrow t b) ∘ fun t2 => resampleTrip (tripRows df t2)) =
      fun t2 => (resampleTrip (tripRows df t2)).countP (isTBrow t b) := rfl
  rw [hfun2]
  by_cases hex : ∃ r ∈ df, r.trip_id = t
  · have htmem : t ∈ tripIds df := (mem_tripIds df t).mpr hex
    have h0 : ∀ t2 ∈ tripIds df, t2 ≠ t →
        (resampleTrip (tripRows df t2)).countP (isTBrow t b) = 0 :=
      fun t2 _ hne => countP_block_zero df t t2 b hne
    rw [sum_map_eq_single (tripIds df)
      (fun t2 => (resampleTrip (tripRows df t2)).countP (isTBrow t b)) t
      (nodup_tripIds df) htmem h0]
    rw [countP_resampleTrip (tripRows df t) t b (sorted_tripRows df t)
      (fun q hq => ((mem_tripRows df t q).mp hq).2)]
    by_cases h3 : ∃ q ∈ df, q.trip_id = t ∧ bucketOf q = b
    · obtain ⟨q, hq, hqt, hqb⟩ := h3
      rw [if_pos ⟨q, (mem_tripRows df t q).mpr ⟨hq, hqt⟩, hqb⟩,
        if_pos ⟨q, hq, hqt, hqb⟩]
    · rw [if_neg ?_, if_neg h3]
      rintro ⟨q, hq, hqb⟩
      have h4 := (mem_tripRows df t q).mp hq
      exact h3 ⟨q, h4.1, h4.2, hqb⟩
  · have hnot : ¬ ∃ q ∈ df, q.trip_id = t ∧ bucketOf q = b := by
      rintro ⟨q, hq, hqt, _⟩
      exact hex ⟨q, hq, hqt⟩
    rw [if_neg hnot]
    apply List.sum_eq_zero
    intro x hx
    obtain ⟨t2, ht2, rfl⟩ := List.mem_map.mp hx
    have hne : t2 ≠ t := by
      rintro rfl
      exact hex ((mem_tripIds df t2).mp ht2)
    exact countP_block_zero df t t2 b hne

/-- C1 fails on the code: for a trip observed in minute buckets 0 and 2
but not in bucket 1, the normalized output does contain a row at the
timestamp of the empty bucket, a placeholder with NaN trip and NaN
coordinates, produced by resample over the interior empty bin. -/
theorem resample_gap_placeholder_counterexample :
    gapRecords.all (fun q => !(bucketOf q == 1)) = true ∧
    ∃ p ∈ preprocessing_positions (fun c => c) gapRecords,
      p.sample_time = 60 * 1 ∧ p.trip_id = none ∧ p.longitude = none ∧
      p.latitude = none ∧ p.geometry = none := by decide

/-- C1 (amended): the output has a row carrying the id of trip t at
bucket b exactly when the trip has a raw record in that bucket; an empty
bucket lying between two observed buckets of the trip still yields a row
at that timestamp, a placeholder with null trip id and null geometry
(not a forward-filled copy of the previous position). -/
theorem resample_bucket_membership (proj : ℚ × ℚ → ℚ × ℚ)
    (df : List PositionRecord) (t : String) (b : Int) :
    ((∃ p ∈ preprocessing_positions proj df,
        p.trip_id = some t ∧ p.sample_time = 60 * b) ↔
      ∃ q ∈ df, q.trip_id = t ∧ bucketOf q = b) ∧
    (∀ q1 ∈ df, ∀ q2 ∈ df, q1.trip_id = t → q2.trip_id = t →
      bucketOf q1 ≤ b → b ≤ bucketOf q2 →
      (∀ q ∈ df, q.trip_id = t → bucketOf q ≠ b) →
      ∃ p ∈ preprocessing_positions proj df,
        p.sample_time = 60 * b ∧ p.trip_id = none ∧ p.geometry = none) := by
  constructor
  · constructor
    · rintro ⟨p, hp, htrip, htime⟩
      obtain ⟨t2, ht2, sr, hsr, rfl⟩ := (mem_preprocessing_iff proj df p).mp hp
      have htrip2 : sr.trip_id = some t := htrip
      have htime2 : sr.sample_time = 60 * b := htime
      obtain ⟨q, hq, hqb, _, hsrEq⟩ := mem_resampleTrip_data (tripRows df t2) b
        (sorted_tripRows df t2) sr hsr
        (fun hn => Option.noConfusion (hn ▸ htrip2)) htime2
      have h6 : some q.trip_id = some t := by
        rw [hsrEq] at htrip2
        exact htrip2
      exact ⟨q, ((mem_tripRows df t2 q).mp hq).1, Option.some_inj.mp h6, hqb⟩
    · intro hex2
      have h1 := countP_preprocessing proj df t b
      rw [if_pos hex2] at h1
      have h2 : 0 < (preprocessing_positions proj df).countP (isTB t b) := by
        omega
      obtain ⟨p, hp, hP⟩ := List.countP_pos_iff.mp h2
      rw [isTB, Bool.and_eq_true, beq_iff_eq, beq_iff_eq] at hP
      exact ⟨p, hp, hP.1, hP.2⟩
  · intro q1 hq1 q2 hq2 hq1t hq2t hq1b hq2b hno
    have htmem : t ∈ tripIds df := (mem_tripIds df t).mpr ⟨q1, hq1, hq1t⟩
    have hq1row : q1 ∈ tripRows df t := (mem_tripRows df t q1).mpr ⟨hq1, hq1t⟩
    have hq2row : q2 ∈ tripRows df t := (mem_tripRows df t q2).mpr ⟨hq2, hq2t⟩
    cases hrows : tripRows df t with
    | nil =>
      rw [hrows] at hq1row
      cases hq1row
    | cons r rs =>
      rw [hrows] at hq1row hq2row
      have hsorted : List.Sorted timeLE (r :: rs) := by
        rw [← hrows]
        exact sorted_tripRows df t
      have hb0 : bucketOf r ≤ b :=
        le_trans (bucket_in_range hsorted hq1row).1 hq1b
      have hb1 : b ≤ bucketOf (rs.getLastD r) :=
        le_trans hq2b (bucket_in_range hsorted hq2row).2
      have hempty : ∀ q ∈ r :: rs, bucketOf q ≠ b := by
        intro q hqmem
        have h7 : q ∈ tripRows df t := by
          rw [hrows]
          exact hqmem
        have h8 := (mem_tripRows df t q).mp h7
        exact hno q h8.1 h8.2
      have hph := placeholder_mem_resampleTrip r rs b hb0 hb1 hempty
      refine ⟨toGeo proj ⟨60 * b, none, none, none⟩, ?_, rfl, rfl, rfl⟩
      apply (mem_preprocessing_iff proj df _).mpr
      refine ⟨t, htmem, ⟨60 * b, none, none, none⟩, ?_, rfl⟩
      rw [hrows]
      exact hph

/-- Witness for the amended C1: on the concrete two-record gap input,
the placeholder row at the empty middle bucket is in the output. -/
theorem resample_bucket_membership_witness :
    ∃ p ∈ preprocessing_positions (fun c => c) gapRecords,
      p.sample_time = 60 * 1 ∧ p.trip_id = none ∧ p.geometry = none :=
  (resample_bucket_membership (fun c => c) gapRecords "7001" 1).2
    ⟨"7001", 25205, 2, 3⟩ (by decide) ⟨"7001", 25330, 4, 5⟩ (by decide)
    rfl rfl (by decide) (by decide) (by decide)

/-- C2: for every trip and every minute bucket containing at least one
raw record, the normalizer emits exactly one row labelled with that trip
and that bucket, and its coordinates (and projected geometry) are those
of an earliest-timestamped record of the bucket; later records in the
bucket are not represented. -/
theorem resample_bucket_unique_earliest (proj : ℚ × ℚ → ℚ × ℚ)
    (df : List PositionRecord) (t : String) (b : Int) (r : PositionRecord)
    (hr : r ∈ df) (ht : r.trip_id = t) (hb : bucketOf r = b) :
    (preprocessing_positions proj df).countP (isTB t b) = 1 ∧
    ∀ p ∈ preprocessing_positions proj df,
      p.trip_id = some t → p.sample_time = 60 * b →
      ∃ q ∈ df, q.trip_id = t ∧ bucketOf q = b ∧
        (∀ s ∈ df, s.trip_id = t → bucketOf s = b →
          q.update_time ≤ s.update_time) ∧
        p.longitude = some q.longitude ∧ p.latitude = some q.latitude ∧
        p.geometry = some (proj (q.longitude, q.latitude)) := by
  constructor
  · rw [countP_preprocessing]
    exact if_pos ⟨r, hr, ht, hb⟩
  · intro p hp htrip htime
    obtain ⟨t2, ht2, sr, hsr, rfl⟩ := (mem_preprocessing_iff proj df p).mp hp
    have htrip2 : sr.trip_id = some t := htrip
    have htime2 : sr.sample_time = 60 * b := htime
    obtain ⟨q, hq, hqb, hmin, hsrEq⟩ := mem_resampleTrip_data (tripRows df t2) b
      (sorted_tripRows df t2) sr hsr
      (fun hn => Option.noConfusion (hn ▸ htrip2)) htime2
    have hqt2 : q.trip_id = t2 := ((mem_tripRows df t2 q).mp hq).2
    have h6 : some q.trip_id = some t := by
      rw [hsrEq] at htrip2
      exact htrip2
    have hqt : q.trip_id = t := Option.some_inj.mp h6
    have ht2t : t2 = t := by rw [← hqt2, hqt]
    refine ⟨q, ((mem_tripRows df t2 q).mp hq).1, hqt, hqb, ?_, ?_, ?_, ?_⟩
    · intro s hs2 hst hsb
      refine hmin s ((mem_tripRows df t2 s).mpr ⟨hs2, ?_⟩) hsb
      rw [hst]
      exact ht2t.symm
    · rw [hsrEq]
      rfl
    · rw [hsrEq]
      rfl
    · rw [hsrEq]
      rfl

/-- Witness for C2: two records of one trip 10 seconds apart in the same
bucket yield exactly one output row for that trip and bucket. -/
theorem resample_bucket_unique_earliest_witness :
    (preprocessing_positions (fun c => c) sameBucketRecords).countP
      (isTB "7001" 0) = 1 :=
  (resample_bucket_unique_earliest (fun c => c) sameBucketRecords "7001" 0
    ⟨"7001", 25210, 2, 3⟩ (by decide) rfl (by decide)).1

/-- C3 fails on the code: a batch with a one-point shape A and a
two-point shape B makes the LineString construction raise, and the whole
groupby apply aborts: no geometry set is produced at all, not even for
shape B. -/
theorem lines_short_shape_aborts_batch :
    isErr (preprocessing_lines (fun c => c) shortShapeRecords) = true ∧
    (shortShapeRecords.filter (fun p => p.shape_id == "A")).length = 1 ∧
    (shortShapeRecords.filter (fun p => p.shape_id == "B")).length = 2 := by
  decide

/-- C3 (amended): a shape whose group has fewer than 2 points makes the
whole geometry-building batch fail with an error; no Route Geometry set
is produced for any shape of the batch. -/
theorem lines_short_shape_error (proj : ℚ × ℚ → ℚ × ℚ) (df : List ShapePoint)
    (sp : ShapePoint) (hsp : sp ∈ df)
    (hshort : (df.filter (fun p => p.shape_id == sp.shape_id)).length < 2) :
    isErr (preprocessing_lines proj df) = true := by
  have hkey : sp.shape_id ∈
      List.insertionSort strLE (uniqList (df.map (fun p => p.shape_id))) := by
    rw [List.mem_insertionSort, mem_uniqList]
    exact List.mem_map.mpr ⟨sp, hsp, rfl⟩
  have herr : isErr (lineStringOf df sp.shape_id) = true := by
    rw [lineStringOf, if_pos (by rw [List.length_map]; exact hshort)]
    rfl
  have h8 := exceptMapList_isErr_of_mem (lineStringOf df) _ sp.shape_id hkey herr
  rw [preprocessing_lines]
  cases hem : exceptMapList (lineStringOf df)
      (List.insertionSort strLE (uniqList (df.map (fun p => p.shape_id)))) with
  | error e => rfl
  | ok g =>
    rw [hem] at h8
    exact absurd h8 (by rw [isErr]; simp)

/-- Witness for the amended C3: the concrete short-shape batch errors. -/
theorem lines_short_shape_error_witness :
    isErr (preprocessing_lines (fun c => c) shortShapeRecords) = true :=
  lines_short_shape_error (fun c => c) shortShapeRecords ⟨"A", 1, 2⟩
    (by decide) (by decide)

/-- C4 fails on the code and the spec is the evident intent: the gif
whose configured output path belongs to the greater Portland (regional)
extent is composited from the image directory of the downtown extent: no
compositing call reads the regional image directory at all. -/
theorem gif_calls_cross_extent :
    (path_images_downtown, path_gif_greater_portland) ∈ gif_calls ∧
    (path_images_downtown == path_images_greater_portland) = false ∧
    gif_calls.all (fun c => c.1 == path_images_downtown) = true := by
  decide

/-- C5: the frame renderer performs exactly one image write per distinct
sample timestamp of the positions set: the number of writes equals the
number of distinct timestamps, and the write for each timestamp is keyed
by its 4-digit hour-minute code under the image directory. -/
theorem create_maps_frame_completeness (gdf_lines : List (String × List (ℚ × ℚ)))
    (gdf_pos : List SampledPos) (path_images : String) :
    (create_maps gdf_lines gdf_pos path_images).length =
      (gdf_pos.map (fun p => p.sample_time)).toFinset.card ∧
    ∀ p ∈ gdf_pos,
      (frame_filename path_images p.sample_time,
        renderFrame gdf_lines gdf_pos p.sample_time) ∈
        create_maps gdf_lines gdf_pos path_images := by
  constructor
  · rw [create_maps, List.length_map]
    exact uniqList_length_toFinset _
  · intro p hp
    rw [create_maps]
    exact List.mem_map.mpr
      ⟨p.sample_time, mem_uniqList.mpr (List.mem_map.mpr ⟨p, hp, rfl⟩), rfl⟩

/-- Witness for C5 on a one-row positions set. -/
theorem create_maps_frame_completeness_witness :
    (frame_filename "data/downtown" 25200, renderFrame [] witnessPosSet 25200) ∈
      create_maps [] witnessPosSet "data/downtown" :=
  (create_maps_frame_completeness [] witnessPosSet "data/downtown").2
    witnessPos (by decide)

/-- C6: whenever the geometry builder succeeds, the vertex sequence of
the geometry of each shape is exactly the projections of that shape's
source points in source row order: no reordering and no deduplication. -/
theorem lines_vertex_order (proj : ℚ × ℚ → ℚ × ℚ) (df : List ShapePoint)
    (g : List (String × List (ℚ × ℚ))) (hok : preprocessing_lines proj df = .ok g)
    (k : String) (vs : List (ℚ × ℚ)) (hmem : (k, vs) ∈ g) :
    vs = (df.filter (fun p => p.shape_id == k)).map
      (fun p => proj (p.shape_pt_lon, p.shape_pt_lat)) := by
  rw [preprocessing_lines] at hok
  cases hem : exceptMapList (lineStringOf df)
      (List.insertionSort strLE (uniqList (df.map (fun p => p.shape_id)))) with
  | error e =>
    rw [hem] at hok
    cases hok
  | ok g0 =>
    rw [hem] at hok
    injection hok with hg
    rw [← hg] at hmem
    obtain ⟨kg, hkg, hpair⟩ := List.mem_map.mp hmem
    obtain ⟨k0, vs0⟩ := kg
    have hpair2 : (k0, vs0.map proj) = (k, vs) := hpair
    injection hpair2 with h12 h13
    obtain ⟨x, hx, hfx⟩ := exceptMapList_ok_mem _ _ _ hem _ hkg
    rw [lineStringOf] at hfx
    by_cases hlen : ((df.filter (fun p => p.shape_id == x)).map
        (fun p => (p.shape_pt_lon, p.shape_pt_lat))).length < 2
    · rw [if_pos hlen] at hfx
      cases hfx
    · rw [if_neg hlen] at hfx
      injection hfx with h9
      have hpair3 : (x, (df.filter (fun p => p.shape_id == x)).map
          (fun p => (p.shape_pt_lon, p.shape_pt_lat))) = (k0, vs0) := h9
      injection hpair3 with h10 h11
      rw [← h13, ← h11, List.map_map, h10, h12]
      rfl

/-- Witness for C6: a three-point shape keeps its vertex order. -/
theorem lines_vertex_order_witness :
    [((1 : ℚ), (2 : ℚ)), (3, 4), (5, 6)] =
      (orderedShapeRecords.filter (fun p => p.shape_id == "S")).map
        (fun p => (fun c : ℚ × ℚ => c) (p.shape_pt_lon, p.shape_pt_lat)) :=
  lines_vertex_order (fun c => c) orderedShapeRecords
    [("S", [(1, 2), (3, 4), (5, 6)])] rfl "S" [(1, 2), (3, 4), (5, 6)]
    (by decide)

/-- C7: the pipeline of drop_duplicates followed by the normalizer is
invariant under appending an exact duplicate of a record that is already
in the input. -/
theorem position_pipeline_duplicate_invariant (proj : ℚ × ℚ → ℚ × ℚ)
    (df : List PositionRecord) (x : PositionRecord) (hx : x ∈ df) :
    positionPipeline proj (df ++ [x]) = positionPipeline proj df := by
  rw [positionPipeline, positionPipeline, drop_duplicates, drop_duplicates,
    uniqList, uniqList, uniqAux_append_of_mem [] df x (Or.inr hx)]

/-- Witness for C7 on a concrete three-record input. -/
theorem position_pipeline_duplicate_invariant_witness :
    positionPipeline (fun c => c) (sameBucketRecords ++ [⟨"8002", 25500, 6, 7⟩]) =
      positionPipeline (fun c => c) sameBucketRecords :=
  position_pipeline_duplicate_invariant (fun c => c) sameBucketRecords
    ⟨"8002", 25500, 6, 7⟩ (by decide)

/-- C8: when some sample timestamp has no frame file at the image
directory, the compositor raises before any gif is assembled: the result
is an error and no animation artifact is produced. -/
theorem create_gif_missing_frame_fatal (fs : String → Option FrameImage)
    (gdf_pos : List SampledPos) (path_images path_gif : String)
    (h : ∃ p ∈ gdf_pos, fs (frame_filename path_images p.sample_time) = none) :
    isErr (create_gif fs gdf_pos path_images path_gif) = true := by
  obtain ⟨p, hp, hnone⟩ := h
  have hmem : p.sample_time ∈ uniqList (gdf_pos.map (fun q => q.sample_time)) :=
    mem_uniqList.mpr (List.mem_map.mpr ⟨p, hp, rfl⟩)
  have herr : isErr (imread fs (frame_filename path_images p.sample_time)) =
      true := by
    rw [imread, hnone]
    rfl
  have h8 := exceptMapList_isErr_of_mem
    (fun t => imread fs (frame_filename path_images t)) _ p.sample_time hmem herr
  rw [create_gif]
  cases hem : exceptMapList (fun t => imread fs (frame_filename path_images t))
      (uniqList (gdf_pos.map (fun q => q.sample_time))) with
  | error e => rfl
  | ok imgs =>
    rw [hem] at h8
    exact absurd h8 (by rw [isErr]; simp)

/-- Witness for C8: an empty file system makes the compositor error. -/
theorem create_gif_missing_frame_fatal_witness :
    isErr (create_gif (fun _ => none) witnessPosSet "data/downtown"
      "data/downtown.gif") = true :=
  create_gif_missing_frame_fatal (fun _ => none) witnessPosSet "data/downtown"
    "data/downtown.gif" ⟨witnessPos, by decide, rfl⟩

/-- C9 fails on the code: the column assignments at the top of
preprocessing_positions mutate the dataframe object the caller passed in,
so after the call the caller's raw collection has gained an
update_datetime column and is not equal to what it was before. -/
theorem normalizer_mutates_caller_counterexample :
    decide ((preprocessing_positions_call (fun c => c) ⟨gapRecords, none⟩).1 =
      (⟨gapRecords, none⟩ : BusDataframe)) = false := by
  decide

/-- C9 (amended): the normalizer call leaves the rows of the caller's
collection unchanged (no row removed, no original field altered) and its
returned output depends only on those rows, but it adds the shifted
update_datetime column to the caller's dataframe in place. -/
theorem normalizer_caller_effect (proj : ℚ × ℚ → ℚ × ℚ) (df : BusDataframe) :
    (preprocessing_positions_call proj df).1.rows = df.rows ∧
    (preprocessing_positions_call proj df).1.update_datetime_col =
      some (df.rows.map displayTime) ∧
    (preprocessing_positions_call proj df).2 =
      preprocessing_positions proj df.rows :=
  ⟨rfl, rfl, rfl⟩

/-- C10: after the renderer has completed over a positions set and an
image directory, the compositor run over the same set and directory finds
every frame it reads (both derive file names from the same distinct
timestamps with the same hour-minute format), so it cannot hit its
missing-file error and returns the assembled artifact. -/
theorem compositor_finds_all_frames (gdf_lines : List (String × List (ℚ × ℚ)))
    (gdf_pos : List SampledPos) (path_images path_gif : String) :
    ∃ imgs, create_gif (fileSystemOf (create_maps gdf_lines gdf_pos path_images))
        gdf_pos path_images path_gif = .ok (path_gif, imgs) := by
  have hall : ∀ t ∈ uniqList (gdf_pos.map (fun p => p.sample_time)),
      ∃ img, imread (fileSystemOf (create_maps gdf_lines gdf_pos path_images))
        (frame_filename path_images t) = .ok img := by
    intro t hmem
    have hw : (frame_filename path_images t, renderFrame gdf_lines gdf_pos t) ∈
        create_maps gdf_lines gdf_pos path_images := by
      rw [create_maps]
      exact List.mem_map.mpr ⟨t, hmem, rfl⟩
    have hw2 : (frame_filename path_images t, renderFrame gdf_lines gdf_pos t) ∈
        (create_maps gdf_lines gdf_pos path_images).reverse :=
      List.mem_reverse.mpr hw
    obtain ⟨w, hwlk⟩ := lookup_isSome_of_mem _ _ _ hw2
    refine ⟨w, ?_⟩
    simp only [imread, fileSystemOf]
    rw [hwlk]
  obtain ⟨imgs, himgs⟩ := exceptMapList_ok_of_forall _ _ hall
  refine ⟨imgs, ?_⟩
  rw [create_gif, himgs]
